import Mathlib

/-!
Verification development for the extended-gtasks-mcp server.

The TypeScript source is shallowly embedded:
* the tag annotation engine (filterByTag / addTag / removeTag in Tasks.ts)
  builds JavaScript regexes of the shape <backslash>[ tag <backslash>] from the
  caller-supplied tag, with flags "i" (and "gi" with surrounding whitespace
  matchers for removeTag).  We embed exactly this pattern language: a token
  list of literal characters (case-insensitive, modeling the "i" flag via
  ASCII case folding as JavaScript does for ASCII) and the dot wildcard; the
  unescaped interpolation of the tag into the pattern is kept faithfully.
* resolveTaskListId, withRetry/isRetryable, the update/create tool handlers
  and the Express session-routing handlers in index.ts become pure functions
  over explicit state / argument records.  JavaScript truthiness tests on
  strings and numbers ("", 0 are falsy) are translated explicitly.
-/

/-- ASCII lower-casing of a character, as JavaScript `toLowerCase` and the
regex `i` flag canonicalize ASCII letters.  (The source only ever compares
task-list names and bracket tags, which are ASCII in this development.) -/
def lowerChar (c : Char) : Char :=
  if 65 ≤ c.toNat ∧ c.toNat ≤ 90 then Char.ofNat (c.toNat + 32) else c

/-- Case-insensitive character comparison (the regex `i` flag). -/
def ciEq (a b : Char) : Bool := lowerChar a == lowerChar b

/-- JavaScript regex whitespace class membership for the characters occurring
in task notes (space, tab, newline, carriage return, vertical tab, form feed),
used by the removeTag pattern. -/
def isJsWs (c : Char) : Bool :=
  c == ' ' || c == '\t' || c == '\n' || c == '\r' || c == '\x0b' || c == '\x0c'

/-- ASCII alphanumeric characters: tag names built from these contain no
regex metacharacters, no backslash and no dot, so interpolating them into a
pattern cannot change the pattern structure. -/
def plainChar (c : Char) : Bool :=
  (48 ≤ c.toNat && c.toNat ≤ 57) || (65 ≤ c.toNat && c.toNat ≤ 90) ||
    (97 ≤ c.toNat && c.toNat ≤ 122)

/-- A token of the embedded regex fragment: a literal character (matched
case-insensitively under the `i` flag) or the dot wildcard. -/
inductive RTok where
  | lit : Char → RTok
  | anyChar : RTok
deriving DecidableEq

/-- Does a single token match a single character?  The dot wildcard matches
everything except line terminators, as in JavaScript. -/
def tokMatch : RTok → Char → Bool
  | .lit a, c => ciEq a c
  | .anyChar, c => !(c == '\n' || c == '\r')

/-- Match a token list against a prefix of the input; returns the rest of the
input after the match. -/
def matchToks : List RTok → List Char → Option (List Char)
  | [], s => some s
  | _ :: _, [] => none
  | t :: ts, c :: cs => if tokMatch t c then matchToks ts cs else none

/-- Regex metacharacters that the embedded fragment does not support as plain
characters; a pattern containing one of them unescaped is outside the
fragment and fails to parse. -/
def isMetaChar (c : Char) : Bool :=
  c == '*' || c == '+' || c == '?' || c == '(' || c == ')' || c == '[' ||
    c == ']' || c == '|' || c == '^' || c == '$' || c == '\x7b' || c == '\x7d'

/-- Parse a JavaScript regex source string into tokens, for the fragment the
source code actually produces: backslash-escaped characters are literals,
the dot is the wildcard, all other non-metacharacters are literals. -/
def parsePattern : List Char → Option (List RTok)
  | [] => some []
  | c :: rest =>
    if c = '\\' then
      match rest with
      | [] => none
      | d :: rest2 => (parsePattern rest2).map (fun ts => .lit d :: ts)
    else if c = '.' then (parsePattern rest).map (fun ts => .anyChar :: ts)
    else if isMetaChar c then none
    else (parsePattern rest).map (fun ts => .lit c :: ts)

/-- The test method of a regex (RegExp.prototype.test): does the token list
match starting at some position of the input? -/
def searchToks (toks : List RTok) : List Char → Bool
  | [] => (matchToks toks []).isSome
  | c :: cs => (matchToks toks (c :: cs)).isSome || searchToks toks cs

/-- Case-insensitive "starts with" for plain character lists; this is the
specification-side notion of literal matching ("the tag is matched literally
as the substring `[tagName]`, case-insensitively"). -/
def startsWithCI : List Char → List Char → Bool
  | [], _ => true
  | _ :: _, [] => false
  | p :: ps, c :: cs => ciEq p c && startsWithCI ps cs

/-- Case-insensitive literal substring containment (specification side). -/
def substrCIL (pat : List Char) : List Char → Bool
  | [] => startsWithCI pat []
  | c :: cs => startsWithCI pat (c :: cs) || substrCIL pat cs

/-- Fuel-driven scanner implementing the global replace
`notes.replace(<ws>* [tag] <ws>*, "\n")` of removeTag: at each position, skip
the (greedy) whitespace run, try the bracket-tag tokens, consume the trailing
whitespace run on success and emit a single newline; otherwise keep the
character.  Because the token list always begins with the literal `[`, which
is not whitespace, greedy whitespace skipping followed by the literal match
is exactly the backtracking behaviour of the JavaScript regex. -/
def removeScanF (t : RTok) (ts : List RTok) : Nat → List Char → List Char
  | 0, _ => []
  | _, [] => []
  | fuel + 1, c :: cs =>
    match matchToks (t :: ts) ((c :: cs).dropWhile isJsWs) with
    | some r => '\n' :: removeScanF t ts fuel (r.dropWhile isJsWs)
    | none => c :: removeScanF t ts fuel cs

/-- The replace scanner at full fuel (the fuel is only a termination device:
each step consumes at least one character). -/
def removeScan (t : RTok) (ts : List RTok) (s : List Char) : List Char :=
  removeScanF t ts s.length s

/-- Drop a leading run of newlines (half of `replace(/^\n+|\n+$/g, "")`). -/
def stripLeadNl (l : List Char) : List Char := l.dropWhile (fun c => c == '\n')

/-- Drop a trailing run of newlines (the other half). -/
def stripTrailNl (l : List Char) : List Char :=
  (l.reverse.dropWhile (fun c => c == '\n')).reverse

/-- The edge cleanup `replace` of leading and trailing newline runs from
removeTag. -/
def stripEdgeNewlines (l : List Char) : List Char := stripTrailNl (stripLeadNl l)

/-- Drop a trailing run of whitespace characters. -/
def trimTrailWs (l : List Char) : List Char := (l.reverse.dropWhile isJsWs).reverse

/-- Specification-side edge normalization: a notes string up to removal of
trailing whitespace and of a leading blank-line run. -/
def edgeNormalized (s : String) : String :=
  String.mk (stripLeadNl (trimTrailWs s.data))

/-- The literal bracket form of a tag (the string interpolation in the
source). -/
def bracketTag (tag : String) : String := "[" ++ tag ++ "]"

/-- The regex source the code builds for a tag:
`new RegExp("\\[" + tag + "\\]", "i")` (tag interpolated unescaped). -/
def tagPatternStr (tag : String) : String := "\\[" ++ tag ++ "\\]"

/-- The test `tagPattern.test(notes)` for the pattern `tagPatternStr tag` with
the `i` flag, as used by filterByTag and addTag.  Patterns outside the embedded
fragment (a tag containing an unsupported metacharacter) are modeled as not
matching; all theorems below restrict to tags inside the fragment. -/
def hasTag (notes tag : String) : Bool :=
  match parsePattern (tagPatternStr tag).data with
  | some toks => searchToks toks notes.data
  | none => false

/-- The notes transformation of TaskActions.addTag: if the tag pattern
already matches, the notes are unchanged; otherwise append the bracket tag on
a new line (`currentNotes ? currentNotes + "\n" + tagStr : tagStr`, where the
empty string is falsy). -/
def addTagNotes (notes tag : String) : String :=
  if hasTag notes tag then notes
  else if notes = "" then bracketTag tag
  else notes ++ "\n" ++ bracketTag tag

/-- The notes transformation of TaskActions.removeTag: if the pattern
`<ws>* [tag] <ws>*` (flags "gi") does not match, the notes are unchanged (the
optional whitespace is nullable, so the test is equivalent to searching for
the bracket tokens); otherwise every match is replaced by a single newline
and leading/trailing newline runs are stripped. -/
def removeTagNotes (notes tag : String) : String :=
  match parsePattern (tagPatternStr tag).data with
  | some (t :: ts) =>
    if searchToks (t :: ts) notes.data then
      String.mk (stripEdgeNewlines (removeScan t ts notes.data))
    else notes
  | _ => notes

/-- A Google Task as far as the tag filter is concerned (id, title, notes;
missing upstream fields arrive as `""` through the `|| ""` defaults). -/
structure GTask where
  id : String
  title : String
  notes : String
deriving DecidableEq

/-- TaskActions.filterByTag's filtering step: keep the tasks whose notes or
title match the tag pattern. -/
def filterByTag (tag : String) (tasksL : List GTask) : List GTask :=
  tasksL.filter (fun t => hasTag t.notes tag || hasTag t.title tag)

/-- A Google task list as the resolver sees it (`Schema$TaskList`: nullable
id and title). -/
structure GTaskList where
  id : Option String
  title : Option String
deriving DecidableEq

/-- The error message thrown by the resolver on an empty task-list list. -/
def noTaskListsMsg : String := "No task lists found in your Google Tasks account"

/-- JavaScript `String.prototype.toLowerCase` restricted to ASCII. -/
def jsToLowerCase (s : String) : String := String.mk (s.data.map lowerChar)

/-- resolveTaskListId from Tasks.ts, with the upstream fetch abstracted into
the `taskLists` argument (the claims quantify over its contents): fail on an
empty list; a falsy (`undefined` or `""`) or `"@default"` reference selects
the first list; otherwise exact id match, then case-insensitive name match,
then fall back to the first list.  `l.id!` is modeled as `l.id.getD ""`. -/
def resolveTaskListId (taskLists : List GTaskList) (requested : Option String) :
    Except String String :=
  match taskLists with
  | [] => .error noTaskListsMsg
  | l0 :: _ =>
    match requested with
    | none => .ok (l0.id.getD "")
    | some r =>
      if r = "" || r = "@default" then .ok (l0.id.getD "")
      else
        match taskLists.find? (fun l => l.id == some r) with
        | some l => .ok (l.id.getD "")
        | none =>
          match taskLists.find? (fun l =>
              l.title.map jsToLowerCase == some (jsToLowerCase r)) with
          | some l => .ok (l.id.getD "")
          | none => .ok (l0.id.getD "")

/-- A JavaScript error-field value: googleapis errors carry numeric statuses
and numeric or string codes. -/
inductive JsVal where
  | num : Nat → JsVal
  | str : String → JsVal
deriving DecidableEq

/-- The shape of an upstream error as read by the retry wrapper:
`error?.response?.status` and `error?.code`. -/
structure JsError where
  responseStatus : Option Nat
  code : Option JsVal
deriving DecidableEq

/-- The status extraction `error?.response?.status || error?.code`: the
JavaScript `||` falls through
on a falsy (0 or undefined) status. -/
def statusOf (e : JsError) : Option JsVal :=
  match e.responseStatus with
  | some n => if n = 0 then e.code else some (.num n)
  | none => e.code

/-- isRetryable from utils.ts: status in the transient set 401/429/500/503,
or code ECONNRESET / ETIMEDOUT. -/
def isRetryable (e : JsError) : Bool :=
  (statusOf e == some (.num 401) || statusOf e == some (.num 429) ||
      statusOf e == some (.num 500) || statusOf e == some (.num 503)) ||
    e.code == some (.str "ECONNRESET") || e.code == some (.str "ETIMEDOUT")

/-- withRetry from utils.ts.  The effectful thunk is embedded as the sequence
of its attempt outcomes (`fn k` is what the k-th invocation would produce);
the second component of the result is the trace of backoff delays actually
waited, so "retries exactly once" and "doubling backoff" are observable.
Each recursive call halves the budget, doubles the delay and moves to the
next attempt, exactly as `withRetry(fn, retries - 1, delayMs * 2)`. -/
def withRetry {α : Type} (fn : Nat → Except JsError α) :
    Nat → Nat → Nat → Except JsError α × List Nat
  | 0, _, attempt =>
    match fn attempt with
    | .ok a => (.ok a, [])
    | .error e => (.error e, [])
  | retries + 1, delayMs, attempt =>
    match fn attempt with
    | .ok a => (.ok a, [])
    | .error e =>
      if isRetryable e then
        let rest := withRetry fn retries (delayMs * 2) (attempt + 1)
        (rest.1, delayMs :: rest.2)
      else (.error e, [])

/-- Arguments of the `update` tool; `none` is an absent (`undefined`) field. -/
structure UpdateArgs where
  id : Option String
  title : Option String
  notes : Option String
  status : Option String
  due : Option String
deriving DecidableEq

/-- One optional field of the PATCH body: included only when provided. -/
def optField (k : String) : Option String → List (String × String)
  | some v => [(k, v)]
  | none => []

/-- The PATCH request body built by TaskActions.update: the task id plus
exactly the fields that are not undefined, in source order; a missing or
empty (falsy) id is the "Task ID is required" error. -/
def updatePatchFields (args : UpdateArgs) : Except String (List (String × String)) :=
  match args.id with
  | none => .error "Task ID is required"
  | some tid =>
    if tid = "" then .error "Task ID is required"
    else
      .ok ([("id", tid)] ++ optField "title" args.title ++ optField "notes" args.notes ++
        optField "status" args.status ++ optField "due" args.due)

/-- JavaScript `String.prototype.startsWith` on character lists
(case-sensitive). -/
def startsWithStr : List Char → List Char → Bool
  | [], _ => true
  | _ :: _, [] => false
  | p :: ps, c :: cs => p == c && startsWithStr ps cs

/-- Case-sensitive substring scan. -/
def containsStr (pat : List Char) : List Char → Bool
  | [] => startsWithStr pat []
  | c :: cs => startsWithStr pat (c :: cs) || containsStr pat cs

/-- JavaScript `s.includes(sub)`. -/
def jsIncludes (s sub : String) : Bool := containsStr sub.data s.data

/-- Arguments of the `create` tool. -/
structure CreateArgs where
  taskListId : Option String
  title : Option String
  notes : Option String
  status : Option String
  due : Option String
deriving DecidableEq

/-- The request body TaskActions.create sends upstream: title, status
defaulting to "needsAction" (`taskStatus || "needsAction"`, empty string
falsy), and notes/due only when provided. -/
structure TaskBody where
  title : String
  status : String
  notes : Option String
  due : Option String
deriving DecidableEq

/-- What the create flow did: the task list used, the title of a task list it
created on the way (if any), and the task body inserted. -/
structure CreateOutcome where
  usedTaskListId : String
  createdListTitle : Option String
  body : TaskBody
deriving DecidableEq

/-- Build the inserted task body from the create arguments. -/
def mkCreateBody (args : CreateArgs) (t : String) : TaskBody :=
  { title := t
    status := match args.status with
      | some s => if s = "" then "needsAction" else s
      | none => "needsAction"
    notes := args.notes
    due := args.due }

/-- The control flow of TaskActions.create: resolve the task list; if that
fails with a message containing "No task lists found", insert a list titled
"My Tasks" (its id arrives as `newListId`; a missing id is the "Failed to
create a new task list" error); rethrow any other resolution error; then
require a truthy title and insert the task body into the chosen list. -/
def createTaskFlow (taskLists : List GTaskList) (args : CreateArgs)
    (newListId : Option String) : Except String CreateOutcome :=
  let resolved : Except String (String × Option String) :=
    match resolveTaskListId taskLists args.taskListId with
    | .ok lid => .ok (lid, none)
    | .error msg =>
      if jsIncludes msg "No task lists found" then
        match newListId with
        | some lid => .ok (lid, some "My Tasks")
        | none => .error "Failed to create a new task list"
      else .error msg
  match resolved with
  | .error msg => .error msg
  | .ok (lid, created) =>
    match args.title with
    | none => .error "Task title is required"
    | some t =>
      if t = "" then .error "Task title is required"
      else .ok { usedTaskListId := lid, createdListTitle := created,
                 body := mkCreateBody args t }

/-- The server's session tables and diagnostic counters (transport handler
instances are represented by opaque numeric handles). -/
structure SessionState where
  sse : List (String × Nat)
  streamable : List (String × Nat)
  totalConnections : Nat
  activeSessions : Nat
deriving DecidableEq

/-- Response of the SSE follow-up endpoint `POST /message`. -/
inductive MessageResp where
  | forwarded : Nat → MessageResp
  | notFound404 : String → MessageResp
deriving DecidableEq

/-- The `app.post("/message")` handler: look the session id up in the SSE
transport table; forward on a hit, otherwise respond 404 "Session not found".
Neither branch touches the tables. -/
def handleMessagePost (st : SessionState) (sessionId : String) :
    MessageResp × SessionState :=
  match st.sse.lookup sessionId with
  | some t => (.forwarded t, st)
  | none => (.notFound404 "Session not found", st)

/-- Response of the StreamableHTTP endpoint `/mcp` (JSON-RPC error codes for
the error cases). -/
inductive McpResp where
  | handled : Nat → McpResp
  | created : String → McpResp
  | notFound : Int → String → McpResp
  | badRequest : Int → String → McpResp
deriving DecidableEq

/-- The `app.all("/mcp")` handler, in source order: (1) a truthy session id
found in the table is routed to its transport; (2) otherwise a POST carrying
an initialize payload creates a fresh transport and session id and bumps the
connection counters; (3) otherwise a (truthy) session id gets the JSON-RPC
"Session not found" error; (4) otherwise "Bad Request".  A present-but-empty
session id header is falsy in JavaScript and is modeled as absent. -/
def handleMcp (st : SessionState) (sessionId : Option String) (method : String)
    (isInit : Bool) (freshSid : String) (freshT : Nat) : McpResp × SessionState :=
  let sid? : Option String :=
    match sessionId with
    | some s => if s = "" then none else some s
    | none => none
  match sid?.bind (fun sid => st.streamable.lookup sid) with
  | some t => (.handled t, st)
  | none =>
    if method = "POST" && isInit then
      (.created freshSid,
        { st with streamable := (freshSid, freshT) :: st.streamable,
                  totalConnections := st.totalConnections + 1,
                  activeSessions := st.activeSessions + 1 })
    else
      match sid? with
      | some _ => (.notFound (-32000) "Session not found. It may have expired.", st)
      | none =>
        (.badRequest (-32600)
          "Bad Request: missing session ID or not an initialize request", st)

/-! ### Character-level lemmas -/

theorem lowerChar_toNat (c : Char) :
    (lowerChar c).toNat =
      if 65 ≤ c.toNat ∧ c.toNat ≤ 90 then c.toNat + 32 else c.toNat := by
  unfold lowerChar
  split
  · next h =>
    have hv : (c.toNat + 32).isValidChar := Or.inl (by omega)
    rw [Char.ofNat, dif_pos hv]
    rfl
  · rfl

theorem char_eq_of_toNat_eq {c d : Char} (h : c.toNat = d.toNat) : c = d := by
  apply Char.ext
  exact UInt32.toNat.inj h

theorem ciEq_iff {a b : Char} : ciEq a b = true ↔ lowerChar a = lowerChar b := by
  simp [ciEq]

theorem ciEq_refl (a : Char) : ciEq a a = true := by simp [ciEq]

theorem eq_of_lowerChar_eq_nonletter {c t : Char}
    (h1 : ¬(65 ≤ t.toNat ∧ t.toNat ≤ 90)) (h2 : ¬(97 ≤ t.toNat ∧ t.toNat ≤ 122))
    (h : lowerChar c = lowerChar t) : c = t := by
  have hlt : lowerChar t = t := by unfold lowerChar; rw [if_neg h1]
  rw [hlt] at h
  have htn : (lowerChar c).toNat = t.toNat := by rw [h]
  have hn := lowerChar_toNat c
  by_cases hc : 65 ≤ c.toNat ∧ c.toNat ≤ 90
  · rw [if_pos hc] at hn
    exact absurd (⟨by omega, by omega⟩ : 97 ≤ t.toNat ∧ t.toNat ≤ 122) h2
  · rw [if_neg hc] at hn
    exact char_eq_of_toNat_eq (by omega)

theorem plainChar_not_ciEq_newline {c : Char} (h : plainChar c = true) :
    ciEq c '\n' = false := by
  cases hq : ciEq c '\n' with
  | false => rfl
  | true =>
    have hc : c = '\n' :=
      eq_of_lowerChar_eq_nonletter (by decide) (by decide) (ciEq_iff.mp hq)
    rw [hc] at h
    exact absurd h (by decide)

theorem eq_bracketOpen_of_ciEq {c : Char} (h : ciEq '[' c = true) : c = '[' := by
  have hl : lowerChar c = lowerChar '[' := (ciEq_iff.mp h).symm
  exact eq_of_lowerChar_eq_nonletter (by decide) (by decide) hl

theorem plainChar_not_special {c : Char} (h : plainChar c = true) :
    isMetaChar c = false ∧ c ≠ '\\' ∧ c ≠ '.' := by
  refine ⟨?_, ?_, ?_⟩
  · cases hm : isMetaChar c with
    | false => rfl
    | true =>
      exfalso
      simp only [isMetaChar, Bool.or_eq_true, beq_iff_eq] at hm
      rcases hm with ((((((((((hm | hm) | hm) | hm) | hm) | hm) | hm) | hm) | hm) | hm) | hm) | hm <;>
        (rw [hm] at h; exact absurd h (by decide))
  · intro he; rw [he] at h; exact absurd h (by decide)
  · intro he; rw [he] at h; exact absurd h (by decide)

/-! ### Regex-engine lemmas: literal token lists match exactly like
case-insensitive substring search -/

theorem matchToks_lit (p : List Char) : ∀ s : List Char,
    matchToks (p.map RTok.lit) s =
      if startsWithCI p s then some (s.drop p.length) else none := by
  induction p with
  | nil => intro s; simp [matchToks, startsWithCI]
  | cons x xs ih =>
    intro s
    cases s with
    | nil => simp [matchToks, startsWithCI]
    | cons c cs =>
      simp only [List.map_cons, matchToks, tokMatch, startsWithCI]
      rcases Bool.eq_false_or_eq_true (ciEq x c) with hx | hx <;>
        simp [hx, ih cs, List.drop_succ_cons]

theorem searchToks_lit (p : List Char) : ∀ s : List Char,
    searchToks (p.map RTok.lit) s = substrCIL p s := by
  intro s
  induction s with
  | nil =>
    simp only [searchToks, substrCIL, matchToks_lit]
    cases hs : startsWithCI p [] <;> simp [hs]
  | cons c cs ih =>
    simp only [searchToks, substrCIL, matchToks_lit, ih]
    cases hs : startsWithCI p (c :: cs) <;> simp [hs]

theorem startsWithCI_refl (l : List Char) : startsWithCI l l = true := by
  induction l with
  | nil => rfl
  | cons c cs ih => simp [startsWithCI, ciEq_refl, ih]

theorem startsWithCI_append_left {p s : List Char} (t : List Char)
    (h : startsWithCI p s = true) : startsWithCI p (s ++ t) = true := by
  induction p generalizing s with
  | nil => simp [startsWithCI]
  | cons x xs ih =>
    cases s with
    | nil => simp [startsWithCI] at h
    | cons c cs =>
      simp only [startsWithCI, Bool.and_eq_true] at h ⊢
      exact ⟨h.1, ih h.2⟩

theorem substrCIL_nil_pat (s : List Char) : substrCIL [] s = true := by
  cases s <;> simp [substrCIL, startsWithCI]

theorem substrCIL_append_right {p ys : List Char} (xs : List Char)
    (h : substrCIL p ys = true) : substrCIL p (xs ++ ys) = true := by
  induction xs with
  | nil => simpa using h
  | cons x xt ih => simp [substrCIL, ih]

theorem substrCIL_append_left {p xs : List Char} (ys : List Char)
    (h : substrCIL p xs = true) : substrCIL p (xs ++ ys) = true := by
  induction xs with
  | nil =>
    cases p with
    | nil => exact substrCIL_nil_pat ys
    | cons q qs => simp [substrCIL, startsWithCI] at h
  | cons x xt ih =>
    simp only [substrCIL, Bool.or_eq_true] at h
    rcases h with h | h
    · have hsw := startsWithCI_append_left ys h
      rw [List.cons_append] at hsw
      simp [substrCIL, hsw]
    · simp [substrCIL, ih h]

theorem substrCIL_cons_false {p : List Char} {c : Char} {cs : List Char}
    (h : substrCIL p (c :: cs) = false) :
    startsWithCI p (c :: cs) = false ∧ substrCIL p cs = false := by
  simpa [substrCIL] using h

theorem startsWithCI_of_startsWith_head {p : List Char} {c : Char} {cs : List Char}
    (h : startsWithCI p (c :: cs) = true) : substrCIL p (c :: cs) = true := by
  simp [substrCIL, h]

theorem startsWithCI_append_newline {p : List Char}
    (hp : ∀ x ∈ p, ciEq x '\n' = false) : ∀ (xs ys : List Char),
    startsWithCI p (xs ++ '\n' :: ys) = true → startsWithCI p xs = true := by
  induction p with
  | nil => intro xs ys _; rfl
  | cons q qs ih =>
    intro xs ys h
    cases xs with
    | nil =>
      simp only [List.nil_append, startsWithCI, Bool.and_eq_true] at h
      have hf := hp q (List.mem_cons_self q qs)
      rw [hf] at h
      exact absurd h.1 (by decide)
    | cons x xt =>
      simp only [List.cons_append, startsWithCI, Bool.and_eq_true] at h ⊢
      exact ⟨h.1, ih (fun z hz => hp z (List.mem_cons_of_mem q hz)) xt ys h.2⟩

/-! ### Parsing the bracket pattern of a plain tag -/

theorem parsePattern_plain_append (l : List Char)
    (hl : ∀ c ∈ l, plainChar c = true) :
    parsePattern (l ++ ['\\', ']']) =
      some (l.map RTok.lit ++ [RTok.lit ']']) := by
  induction l with
  | nil => rfl
  | cons c cs ih =>
    have hc := hl c (List.mem_cons_self c cs)
    obtain ⟨hm, hb, hd⟩ := plainChar_not_special hc
    have ih2 := ih (fun z hz => hl z (List.mem_cons_of_mem c hz))
    simp only [List.cons_append]
    rw [parsePattern.eq_def]
    simp only []
    rw [if_neg hb, if_neg hd, hm]
    simp [ih2]

theorem bracketTag_data (tag : String) :
    (bracketTag tag).data = '[' :: (tag.data ++ [']']) := by
  simp [bracketTag, String.data_append]

theorem parsePattern_bracket (tag : String)
    (h : ∀ c ∈ tag.data, plainChar c = true) :
    parsePattern (tagPatternStr tag).data =
      some (('[' :: (tag.data ++ [']'])).map RTok.lit) := by
  have hdata : (tagPatternStr tag).data = '\\' :: '[' :: (tag.data ++ ['\\', ']']) := by
    simp [tagPatternStr, String.data_append]
  rw [hdata]
  rw [parsePattern.eq_def]
  simp [parsePattern_plain_append tag.data h]

theorem hasTag_eq_substr (notes tag : String)
    (h : ∀ c ∈ tag.data, plainChar c = true) :
    hasTag notes tag = substrCIL (bracketTag tag).data notes.data := by
  unfold hasTag
  rw [parsePattern_bracket tag h, bracketTag_data]
  exact searchToks_lit _ _

/-! ### The replace scanner: fuel irrelevance and unfolding -/

theorem matchToks_length : ∀ (toks : List RTok) (s r : List Char),
    matchToks toks s = some r → r.length + toks.length = s.length := by
  intro toks
  induction toks with
  | nil => intro s r hm; simp [matchToks] at hm; simp [hm]
  | cons t' ts' ih =>
    intro s r hm
    match s with
    | [] => simp [matchToks] at hm
    | c' :: cs' =>
      simp only [matchToks] at hm
      split at hm
      · have := ih cs' r hm
        simp only [List.length_cons]
        omega
      · exact absurd hm (by simp)

theorem removeScanF_nil : ∀ (f : Nat) (t : RTok) (ts : List RTok),
    removeScanF t ts f [] = [] := by
  intro f t ts; cases f <;> rfl

theorem removeScanF_fuel : ∀ (f g : Nat) (s : List Char), s.length ≤ f → s.length ≤ g →
    ∀ t ts, removeScanF t ts f s = removeScanF t ts g s := by
  intro f
  induction f with
  | zero =>
    intro g s hf _ t ts
    have : s = [] := List.eq_nil_of_length_eq_zero (Nat.le_zero.mp hf)
    subst this
    rw [removeScanF_nil, removeScanF_nil]
  | succ f ih =>
    intro g s hf hg t ts
    match s, g with
    | [], g => rw [removeScanF_nil, removeScanF_nil]
    | c :: cs, 0 => simp at hg
    | c :: cs, g + 1 =>
      simp only [removeScanF]
      cases hm : matchToks (t :: ts) ((c :: cs).dropWhile isJsWs) with
      | some r =>
        have hlen := matchToks_length _ _ _ hm
        have hdw : ((c :: cs).dropWhile isJsWs).length ≤ (c :: cs).length :=
          (List.dropWhile_sublist _).length_le
        have hdr : (r.dropWhile isJsWs).length ≤ r.length :=
          (List.dropWhile_sublist _).length_le
        simp only [List.length_cons] at *
        rw [ih g (r.dropWhile isJsWs) (by omega) (by omega)]
      | none =>
        simp only [List.length_cons] at hf hg
        rw [ih g cs (by omega) (by omega)]

theorem removeScan_nil (t : RTok) (ts : List RTok) : removeScan t ts [] = [] := rfl

theorem removeScan_cons (t : RTok) (ts : List RTok) (c : Char) (cs : List Char) :
    removeScan t ts (c :: cs) =
      match matchToks (t :: ts) ((c :: cs).dropWhile isJsWs) with
      | some r => '\n' :: removeScan t ts (r.dropWhile isJsWs)
      | none => c :: removeScan t ts cs := by
  unfold removeScan
  conv_lhs => rw [List.length_cons, removeScanF]
  cases hm : matchToks (t :: ts) ((c :: cs).dropWhile isJsWs) with
  | some r =>
    have hlen := matchToks_length _ _ _ hm
    have hdw : ((c :: cs).dropWhile isJsWs).length ≤ (c :: cs).length :=
      (List.dropWhile_sublist _).length_le
    have hdr : (r.dropWhile isJsWs).length ≤ r.length :=
      (List.dropWhile_sublist _).length_le
    simp only [List.length_cons] at *
    rw [removeScanF_fuel cs.length (r.dropWhile isJsWs).length (r.dropWhile isJsWs)
      (by omega) (by omega)]
  | none => rfl

/-! ### dropWhile / trimming helpers -/

theorem dropWhile_head_false {p : Char → Bool} : ∀ {l : List Char} {c : Char}
    {cs : List Char}, l.dropWhile p = c :: cs → p c = false := by
  intro l
  induction l with
  | nil => intro c cs h; simp at h
  | cons a l2 ih =>
    intro c cs h
    rcases Bool.eq_false_or_eq_true (p a) with ha | ha
    · rw [List.dropWhile_cons_of_pos (by simp [ha])] at h
      exact ih h
    · rw [List.dropWhile_cons_of_neg (by simp [ha])] at h
      cases h
      exact ha

theorem dropWhile_dropWhile (p : Char → Bool) (l : List Char) :
    (l.dropWhile p).dropWhile p = l.dropWhile p := by
  cases hd : l.dropWhile p with
  | nil => rfl
  | cons c cs =>
    have hc := dropWhile_head_false hd
    rw [List.dropWhile_cons_of_neg (by simp [hc])]

theorem trimTrailWs_eq_nil {l : List Char} (h : ∀ x ∈ l, isJsWs x = true) :
    trimTrailWs l = [] := by
  unfold trimTrailWs
  rw [List.dropWhile_eq_nil_iff.mpr (fun x hx => h x (List.mem_reverse.mp hx))]
  rfl

theorem trimTrailWs_cons {c : Char} {cs : List Char}
    (h : ¬ ∀ x ∈ c :: cs, isJsWs x = true) :
    trimTrailWs (c :: cs) = c :: trimTrailWs cs := by
  unfold trimTrailWs
  rw [List.reverse_cons, List.dropWhile_append]
  by_cases hcs : ∀ x ∈ cs, isJsWs x = true
  · have hc : isJsWs c = false := by
      cases hq : isJsWs c with
      | false => rfl
      | true =>
        exact absurd (fun x hx => by
          rcases List.mem_cons.mp hx with rfl | hx2
          · exact hq
          · exact hcs x hx2) h
    rw [List.dropWhile_eq_nil_iff.mpr (fun x hx => hcs x (List.mem_reverse.mp hx))]
    simp [hc]
  · have hne : ¬ (cs.reverse.dropWhile isJsWs).isEmpty = true := by
      simp only [List.isEmpty_eq_true, List.dropWhile_eq_nil_iff]
      intro hall
      exact hcs (fun x hx => hall x (List.mem_reverse.mpr hx))
    rw [if_neg hne, List.reverse_append]
    simp

theorem stripEdgeNewlines_snoc_nl (M : List Char)
    (hM : M.reverse.dropWhile isJsWs = M.reverse) :
    stripEdgeNewlines (M ++ ['\n']) = stripLeadNl M := by
  cases hMc : M with
  | nil => rfl
  | cons m ms =>
    rw [← hMc]
    have hMne : M.reverse ≠ [] := by simp [hMc]
    obtain ⟨y, yr, hyr⟩ : ∃ y yr, M.reverse = y :: yr := by
      cases hr : M.reverse with
      | nil => exact absurd hr hMne
      | cons a b => exact ⟨a, b, rfl⟩
    have hy : isJsWs y = false := by
      cases hq : isJsWs y with
      | false => rfl
      | true =>
        rw [hyr, List.dropWhile_cons_of_pos (by simp [hq])] at hM
        have := congrArg List.length hM
        have hle : (yr.dropWhile isJsWs).length ≤ yr.length :=
          (List.dropWhile_sublist _).length_le
        simp at this
        omega
    have hynl : y ≠ '\n' := by
      intro he; rw [he] at hy; exact absurd hy (by decide)
    have hyM : y ∈ M := List.mem_reverse.mp (by rw [hyr]; exact List.mem_cons_self y yr)
    have hlead_ne : M.dropWhile (fun c => c == '\n') ≠ [] := by
      intro hnil
      have := List.dropWhile_eq_nil_iff.mp hnil y hyM
      simp at this
      exact hynl this
    have hstep1 : stripLeadNl (M ++ ['\n']) = stripLeadNl M ++ ['\n'] := by
      unfold stripLeadNl
      rw [List.dropWhile_append]
      rw [if_neg (by simp only [List.isEmpty_eq_true]; exact hlead_ne)]
    unfold stripEdgeNewlines
    rw [hstep1]
    unfold stripTrailNl
    rw [List.reverse_append]
    simp only [List.reverse_cons, List.reverse_nil, List.nil_append,
      List.singleton_append]
    rw [List.dropWhile_cons_of_pos (by simp)]
    have hhd : (stripLeadNl M).reverse.head? = some y := by
      have hsplit : M = M.takeWhile (fun c => c == '\n') ++ stripLeadNl M :=
        (List.takeWhile_append_dropWhile _ _).symm
      have hrev : M.reverse = (stripLeadNl M).reverse ++ (M.takeWhile (fun c => c == '\n')).reverse := by
        conv_lhs => rw [hsplit]
        rw [List.reverse_append]
      have : M.reverse.head? = (stripLeadNl M).reverse.head? := by
        rw [hrev, List.head?_append]
        cases hsr : (stripLeadNl M).reverse with
        | nil =>
          exact absurd (List.reverse_eq_nil_iff.mp hsr) hlead_ne
        | cons a b => simp
      rw [← this, hyr]
      rfl
    obtain ⟨z, zr, hzr⟩ : ∃ z zr, (stripLeadNl M).reverse = z :: zr := by
      cases hsr : (stripLeadNl M).reverse with
      | nil => rw [hsr] at hhd; simp at hhd
      | cons a b => exact ⟨a, b, rfl⟩
    have hz : z = y := by rw [hzr] at hhd; simpa using hhd
    rw [hzr, List.dropWhile_cons_of_neg (by simp [hz, hynl]), ← hzr,
      List.reverse_reverse]

/-! ### Scanning lemmas for plain (alphanumeric) tags -/

theorem bracket_no_newline (tag : String) (h : ∀ c ∈ tag.data, plainChar c = true) :
    ∀ x ∈ '[' :: (tag.data ++ [']']), ciEq x '\n' = false := by
  intro x hx
  rcases List.mem_cons.mp hx with rfl | hx2
  · decide
  · rcases List.mem_append.mp hx2 with hxt | hxe
    · exact plainChar_not_ciEq_newline (h x hxt)
    · rw [List.mem_singleton.mp hxe]; decide

theorem matchToks_bracket_self (tag : String) :
    matchToks (RTok.lit '[' :: (tag.data ++ [']']).map RTok.lit)
      ('[' :: (tag.data ++ [']'])) = some [] := by
  have hmt := matchToks_lit ('[' :: (tag.data ++ [']'])) ('[' :: (tag.data ++ [']']))
  rw [List.map_cons] at hmt
  rw [hmt, startsWithCI_refl]
  simp [List.drop_length]

theorem startsWithCI_removeScan {t : RTok} {ts : List RTok} :
    ∀ (n : Nat) (pat s : List Char), s.length ≤ n →
      (∀ x ∈ pat, ciEq x '\n' = false) →
      startsWithCI pat (removeScan t ts s) = true → startsWithCI pat s = true := by
  intro n
  induction n with
  | zero =>
    intro pat s hlen hnl hsw
    have hs : s = [] := List.eq_nil_of_length_eq_zero (Nat.le_zero.mp hlen)
    subst hs
    rwa [removeScan_nil] at hsw
  | succ n ih =>
    intro pat s hlen hnl hsw
    cases s with
    | nil => rwa [removeScan_nil] at hsw
    | cons c cs =>
      rw [removeScan_cons] at hsw
      split at hsw
      · next r heq =>
        cases pat with
        | nil => rfl
        | cons q qs =>
          simp only [startsWithCI, Bool.and_eq_true] at hsw
          have hq := hnl q (List.mem_cons_self q qs)
          rw [hq] at hsw
          exact absurd hsw.1 (by decide)
      · next heq =>
        cases pat with
        | nil => rfl
        | cons q qs =>
          simp only [startsWithCI, Bool.and_eq_true] at hsw ⊢
          refine ⟨hsw.1, ?_⟩
          exact ih qs cs (by simp only [List.length_cons] at hlen; omega)
            (fun z hz => hnl z (List.mem_cons_of_mem q hz)) hsw.2

theorem substrCIL_removeScan (tag : String) (hp : ∀ c ∈ tag.data, plainChar c = true) :
    ∀ (n : Nat) (s : List Char), s.length ≤ n →
      substrCIL ('[' :: (tag.data ++ [']']))
        (removeScan (RTok.lit '[') ((tag.data ++ [']']).map RTok.lit) s) = false := by
  intro n
  induction n with
  | zero =>
    intro s hlen
    have hs : s = [] := List.eq_nil_of_length_eq_zero (Nat.le_zero.mp hlen)
    subst hs
    rw [removeScan_nil]
    rfl
  | succ n ih =>
    intro s hlen
    cases s with
    | nil => rw [removeScan_nil]; rfl
    | cons c cs =>
      rw [removeScan_cons]
      split
      · next r heq =>
        have hlen2 : (r.dropWhile isJsWs).length ≤ n := by
          have h1 := matchToks_length _ _ _ heq
          have h2 : ((c :: cs).dropWhile isJsWs).length ≤ (c :: cs).length :=
            (List.dropWhile_sublist _).length_le
          have h3 : (r.dropWhile isJsWs).length ≤ r.length :=
            (List.dropWhile_sublist _).length_le
          simp only [List.length_cons] at *
          omega
        have h1 : ciEq '[' '\n' = false := by decide
        simp only [substrCIL, startsWithCI, h1, Bool.false_and, Bool.false_or]
        exact ih (r.dropWhile isJsWs) hlen2
      · next heq =>
        have hlen2 : cs.length ≤ n := by
          simp only [List.length_cons] at hlen; omega
        have htail := ih cs hlen2
        simp only [substrCIL]
        rw [htail, Bool.or_false]
        rcases Bool.eq_false_or_eq_true (startsWithCI ('[' :: (tag.data ++ [']']))
            (c :: removeScan (RTok.lit '[') ((tag.data ++ [']']).map RTok.lit) cs))
          with hsw | hsw
        · exfalso
          simp only [startsWithCI, Bool.and_eq_true] at hsw
          obtain ⟨hq, hrest⟩ := hsw
          have hc : c = '[' := eq_bracketOpen_of_ciEq hq
          have hnlrest : ∀ x ∈ tag.data ++ [']'], ciEq x '\n' = false :=
            fun x hx => bracket_no_newline tag hp x (List.mem_cons_of_mem _ hx)
          have hswcs := startsWithCI_removeScan cs.length (tag.data ++ [']']) cs
            (le_refl _) hnlrest hrest
          have hdrop : (c :: cs).dropWhile isJsWs = c :: cs := by
            rw [hc, List.dropWhile_cons_of_neg (by decide)]
          rw [hdrop] at heq
          have hmt := matchToks_lit ('[' :: (tag.data ++ [']'])) (c :: cs)
          rw [List.map_cons, heq] at hmt
          have hswfull : startsWithCI ('[' :: (tag.data ++ [']'])) (c :: cs) = true := by
            simp only [startsWithCI, Bool.and_eq_true]
            exact ⟨by rw [hc]; exact ciEq_refl '[', hswcs⟩
          rw [hswfull] at hmt
          simp at hmt
        · exact hsw

theorem removeScan_append_bracket (tag : String)
    (hp : ∀ c ∈ tag.data, plainChar c = true) :
    ∀ N : List Char, substrCIL ('[' :: (tag.data ++ [']'])) N = false →
      removeScan (RTok.lit '[') ((tag.data ++ [']']).map RTok.lit)
        (N ++ '\n' :: '[' :: (tag.data ++ [']'])) =
      trimTrailWs N ++ ['\n'] := by
  intro N
  induction N with
  | nil =>
    intro _
    rw [List.nil_append, removeScan_cons]
    have hd : ('\n' :: '[' :: (tag.data ++ [']'])).dropWhile isJsWs
        = '[' :: (tag.data ++ [']']) := by
      rw [List.dropWhile_cons_of_pos (by decide), List.dropWhile_cons_of_neg (by decide)]
    rw [hd]
    simp only [matchToks_bracket_self]
    simp [removeScan_nil, trimTrailWs]
  | cons c cs ih =>
    intro hsub
    by_cases hall : ∀ x ∈ c :: cs, isJsWs x = true
    · rw [List.cons_append, removeScan_cons]
      have hd : (c :: (cs ++ '\n' :: '[' :: (tag.data ++ [']']))).dropWhile isJsWs
          = '[' :: (tag.data ++ [']']) := by
        rw [← List.cons_append, List.dropWhile_append_of_pos hall,
          List.dropWhile_cons_of_pos (by decide), List.dropWhile_cons_of_neg (by decide)]
      rw [hd]
      simp only [matchToks_bracket_self]
      rw [trimTrailWs_eq_nil hall]
      simp [removeScan_nil]
    · rw [List.cons_append, removeScan_cons]
      have hR : (c :: cs).dropWhile isJsWs ≠ [] := by
        intro hnil
        exact hall (List.dropWhile_eq_nil_iff.mp hnil)
      have hd : (c :: (cs ++ '\n' :: '[' :: (tag.data ++ [']']))).dropWhile isJsWs
          = ((c :: cs).dropWhile isJsWs) ++ ('\n' :: '[' :: (tag.data ++ [']'])) := by
        rw [← List.cons_append, List.dropWhile_append]
        rw [if_neg (by simpa using hR)]
      rw [hd]
      have hnone : matchToks (RTok.lit '[' :: (tag.data ++ [']']).map RTok.lit)
          (((c :: cs).dropWhile isJsWs) ++ ('\n' :: '[' :: (tag.data ++ [']']))) = none := by
        have hmt := matchToks_lit ('[' :: (tag.data ++ [']']))
          (((c :: cs).dropWhile isJsWs) ++ ('\n' :: '[' :: (tag.data ++ [']'])))
        rw [List.map_cons] at hmt
        rw [hmt]
        rcases Bool.eq_false_or_eq_true (startsWithCI ('[' :: (tag.data ++ [']']))
            (((c :: cs).dropWhile isJsWs) ++ ('\n' :: '[' :: (tag.data ++ [']'])))) with hq | hq
        · exfalso
          have hswR := startsWithCI_append_newline (bracket_no_newline tag hp) _ _ hq
          obtain ⟨d, ds, hds⟩ : ∃ d ds, (c :: cs).dropWhile isJsWs = d :: ds := by
            cases hcc : (c :: cs).dropWhile isJsWs with
            | nil => exact absurd hcc hR
            | cons a b => exact ⟨a, b, rfl⟩
          have hsubR : substrCIL ('[' :: (tag.data ++ [']']))
              ((c :: cs).dropWhile isJsWs) = true := by
            rw [hds]
            rw [hds] at hswR
            exact startsWithCI_of_startsWith_head hswR
          have hsubN : substrCIL ('[' :: (tag.data ++ [']'])) (c :: cs) = true := by
            have hsplit : (c :: cs) =
                (c :: cs).takeWhile isJsWs ++ (c :: cs).dropWhile isJsWs :=
              (List.takeWhile_append_dropWhile _ _).symm
            rw [hsplit]
            exact substrCIL_append_right _ hsubR
          rw [hsub] at hsubN
          exact Bool.false_ne_true hsubN
        · rw [hq]; simp
      rw [hnone]
      have hcs_sub : substrCIL ('[' :: (tag.data ++ [']'])) cs = false :=
        (substrCIL_cons_false hsub).2
      rw [ih hcs_sub, trimTrailWs_cons hall]
      rfl

/-! ### Unfolding the tag operations for plain tags -/

theorem removeTagNotes_plain (notes tag : String)
    (hp : ∀ c ∈ tag.data, plainChar c = true) :
    removeTagNotes notes tag =
      if substrCIL ('[' :: (tag.data ++ [']'])) notes.data then
        String.mk (stripEdgeNewlines
          (removeScan (RTok.lit '[') ((tag.data ++ [']']).map RTok.lit) notes.data))
      else notes := by
  unfold removeTagNotes
  rw [parsePattern_bracket tag hp, List.map_cons]
  show (if searchToks (RTok.lit '[' :: (tag.data ++ [']']).map RTok.lit) notes.data then
      String.mk (stripEdgeNewlines
        (removeScan (RTok.lit '[') ((tag.data ++ [']']).map RTok.lit) notes.data))
    else notes) = _
  rw [show searchToks (RTok.lit '[' :: (tag.data ++ [']']).map RTok.lit) notes.data
      = substrCIL ('[' :: (tag.data ++ [']'])) notes.data from by
    rw [← List.map_cons]; exact searchToks_lit _ _]

theorem substrCIL_bracket_self (tag : String) :
    substrCIL ('[' :: (tag.data ++ [']'])) ('[' :: (tag.data ++ [']'])) = true :=
  startsWithCI_of_startsWith_head (startsWithCI_refl _)

theorem addTag_data_plain (N tag : String) :
    (N ++ "\n" ++ bracketTag tag).data =
      N.data ++ '\n' :: ('[' :: (tag.data ++ [']'])) := by
  have h1 : ("\n" : String).data = ['\n'] := rfl
  simp [String.data_append, bracketTag_data, h1]

theorem substrCIL_newline_bracket (tag : String) (l : List Char) :
    substrCIL ('[' :: (tag.data ++ [']'])) (l ++ '\n' :: ('[' :: (tag.data ++ [']']))) = true := by
  apply substrCIL_append_right
  simp only [substrCIL]
  simp [startsWithCI_refl]

theorem removeScan_bracket_self (tag : String) :
    removeScan (RTok.lit '[') ((tag.data ++ [']']).map RTok.lit)
      ('[' :: (tag.data ++ [']'])) = ['\n'] := by
  rw [removeScan_cons,
    show ('[' :: (tag.data ++ [']'])).dropWhile isJsWs = '[' :: (tag.data ++ [']'])
      from List.dropWhile_cons_of_neg (by decide)]
  simp only [matchToks_bracket_self]
  simp [removeScan_nil]

theorem substrCIL_stripTrailNl {p A : List Char}
    (h : substrCIL p (stripTrailNl A) = true) : substrCIL p A = true := by
  have hA : A = stripTrailNl A ++ (A.reverse.takeWhile (fun c => c == '\n')).reverse := by
    unfold stripTrailNl
    rw [← List.reverse_append, List.takeWhile_append_dropWhile, List.reverse_reverse]
  rw [hA]
  exact substrCIL_append_left _ h

theorem substrCIL_stripLeadNl {p l : List Char}
    (h : substrCIL p (stripLeadNl l) = true) : substrCIL p l = true := by
  have hl : l = l.takeWhile (fun c => c == '\n') ++ stripLeadNl l :=
    (List.takeWhile_append_dropWhile _ _).symm
  rw [hl]
  exact substrCIL_append_right _ h

theorem substrCIL_stripEdge_false {p l : List Char}
    (h : substrCIL p l = false) : substrCIL p (stripEdgeNewlines l) = false := by
  rcases Bool.eq_false_or_eq_true (substrCIL p (stripEdgeNewlines l)) with hq | hq
  · exfalso
    have h1 : substrCIL p (stripLeadNl l) = true := substrCIL_stripTrailNl hq
    have h2 : substrCIL p l = true := substrCIL_stripLeadNl h1
    rw [h] at h2
    exact Bool.false_ne_true h2
  · exact hq

theorem trimTrailWs_fixed (l : List Char) :
    (trimTrailWs l).reverse.dropWhile isJsWs = (trimTrailWs l).reverse := by
  unfold trimTrailWs
  rw [List.reverse_reverse]
  exact dropWhile_dropWhile isJsWs l.reverse

/-! ### Claims C1, C4, C5, C6: the tag annotation engine -/

/-- Claim C1, amended.  Tag names are interpolated into the matching pattern
without escaping.  For a tag name made of plain (ASCII alphanumeric)
characters the pattern has no metacharacters, so the tag operations match
exactly the literal substring `[tagName]` case-insensitively, both in the
`hasTag` test used by add_tag/remove_tag/filter_by_tag and in the
filter_by_tag task filter.  (The unamended claim — literal matching for
every tag name — is refuted by `tagMatch_dot_counterexample`.) -/
theorem tagMatch_literal_iff_plain (tag notes : String) (tasksL : List GTask)
    (hp : ∀ c ∈ tag.data, plainChar c = true) :
    hasTag notes tag = substrCIL (bracketTag tag).data notes.data ∧
    filterByTag tag tasksL = tasksL.filter (fun t =>
      substrCIL (bracketTag tag).data t.notes.data ||
        substrCIL (bracketTag tag).data t.title.data) := by
  refine ⟨hasTag_eq_substr notes tag hp, ?_⟩
  unfold filterByTag
  apply List.filter_congr
  intro t _
  rw [hasTag_eq_substr t.notes tag hp, hasTag_eq_substr t.title tag hp]

/-- Claim C1, counterexample to the claim as stated: the tag name "." is not
escaped, so its pattern `[.]` matches the non-literal text `[Z]` even though
the literal substring `[.]` does not occur in it. -/
theorem tagMatch_dot_counterexample :
    hasTag "[Z]" "." = true ∧
    substrCIL (bracketTag ".").data "[Z]".data = false := by
  exact ⟨by decide, by decide⟩

/-- Claim C1, witness. -/
theorem tagMatch_literal_witness :
    hasTag "Buy milk\n[Home]" "Home" =
      substrCIL (bracketTag "Home").data "Buy milk\n[Home]".data ∧
    filterByTag "Home" [] = List.filter (fun t =>
      substrCIL (bracketTag "Home").data t.notes.data ||
        substrCIL (bracketTag "Home").data t.title.data) [] :=
  tagMatch_literal_iff_plain "Home" "Buy milk\n[Home]" [] (by decide)

/-- Claim C5, amended.  For plain (ASCII alphanumeric) tag names: addTag is
idempotent; when `[T]` already occurs (case-insensitively) the notes are
returned unchanged; when it does not occur the bracket tag is appended on a
new line (or is the whole notes when the notes were empty); and the two
scenario equations hold.  (The unamended claim — for every tag name — is
refuted by `addTag_dot_counterexample`: presence is detected by the
unescaped pattern, not by the literal text.) -/
theorem addTag_idempotent_plain (tag N : String)
    (hp : ∀ c ∈ tag.data, plainChar c = true) :
    addTagNotes (addTagNotes N tag) tag = addTagNotes N tag ∧
    (substrCIL (bracketTag tag).data N.data = true → addTagNotes N tag = N) ∧
    (substrCIL (bracketTag tag).data N.data = false →
      addTagNotes N tag =
        if N = "" then bracketTag tag else N ++ "\n" ++ bracketTag tag) ∧
    addTagNotes "Buy milk" "Home" = "Buy milk\n[Home]" ∧
    addTagNotes "Buy milk\n[Home]" "Home" = "Buy milk\n[Home]" := by
  have hpresent : ∀ M : String, substrCIL (bracketTag tag).data M.data = true →
      addTagNotes M tag = M := by
    intro M hM
    unfold addTagNotes
    rw [hasTag_eq_substr M tag hp]
    simp only [hM, if_true]
  have habsent : substrCIL (bracketTag tag).data N.data = false →
      addTagNotes N tag =
        if N = "" then bracketTag tag else N ++ "\n" ++ bracketTag tag := by
    intro hM
    unfold addTagNotes
    rw [hasTag_eq_substr N tag hp]
    simp only [hM, Bool.false_eq_true, if_false]
  refine ⟨?_, hpresent N, habsent, by decide, by decide⟩
  rcases Bool.eq_false_or_eq_true (substrCIL (bracketTag tag).data N.data) with hq | hq
  · rw [hpresent N hq]
    exact hpresent N hq
  · rw [habsent hq]
    by_cases hNe : N = ""
    · rw [if_pos hNe]
      apply hpresent
      rw [bracketTag_data]
      exact substrCIL_bracket_self tag
    · rw [if_neg hNe]
      apply hpresent
      rw [addTag_data_plain, bracketTag_data]
      exact substrCIL_newline_bracket tag N.data

/-- Claim C5, counterexample to the claim as stated: with tag name ".", the
literal `[.]` is absent from the notes `[x]`, yet addTag returns the notes
unchanged instead of appending, because the unescaped pattern `[.]` already
matches `[x]`. -/
theorem addTag_dot_counterexample :
    substrCIL (bracketTag ".").data "[x]".data = false ∧
    addTagNotes "[x]" "." = "[x]" ∧
    addTagNotes "[x]" "." ≠ "[x]" ++ "\n" ++ bracketTag "." := by
  exact ⟨by decide, by decide, by decide⟩

/-- Claim C5, witness. -/
theorem addTag_idempotent_witness :
    addTagNotes (addTagNotes "Buy milk" "Home") "Home" = addTagNotes "Buy milk" "Home" ∧
    (substrCIL (bracketTag "Home").data "Buy milk".data = true →
      addTagNotes "Buy milk" "Home" = "Buy milk") ∧
    (substrCIL (bracketTag "Home").data "Buy milk".data = false →
      addTagNotes "Buy milk" "Home" =
        if "Buy milk" = "" then bracketTag "Home"
        else "Buy milk" ++ "\n" ++ bracketTag "Home") ∧
    addTagNotes "Buy milk" "Home" = "Buy milk\n[Home]" ∧
    addTagNotes "Buy milk\n[Home]" "Home" = "Buy milk\n[Home]" :=
  addTag_idempotent_plain "Home" "Buy milk" (by decide)

/-- Claim C6, amended.  For plain (ASCII alphanumeric) tag names: removeTag
on notes not containing `[T]` (case-insensitively) returns them unchanged;
after removeTag the result never contains `[T]` (every occurrence is
removed); and the scenario holds, with surrounding whitespace collapsed and
no stray blank line.  (The unamended claim — for every tag name — is
refuted by `removeTag_dot_counterexample`.) -/
theorem removeTag_plain (tag N : String)
    (hp : ∀ c ∈ tag.data, plainChar c = true) :
    (substrCIL (bracketTag tag).data N.data = false → removeTagNotes N tag = N) ∧
    substrCIL (bracketTag tag).data ((removeTagNotes N tag).data) = false ∧
    removeTagNotes "Buy milk\n[Home]\n[Urgent]" "Home" = "Buy milk\n[Urgent]" := by
  have hplain := removeTagNotes_plain N tag hp
  refine ⟨?_, ?_, by decide⟩
  · intro hN
    rw [bracketTag_data] at hN
    rw [hplain, if_neg (by rw [hN]; exact Bool.false_ne_true)]
  · rw [bracketTag_data]
    rcases Bool.eq_false_or_eq_true
        (substrCIL ('[' :: (tag.data ++ [']'])) N.data) with hq | hq
    · rw [hplain, if_pos hq]
      show substrCIL ('[' :: (tag.data ++ [']']))
        (stripEdgeNewlines
          (removeScan (RTok.lit '[') ((tag.data ++ [']']).map RTok.lit) N.data)) = false
      apply substrCIL_stripEdge_false
      exact substrCIL_removeScan tag hp N.data.length N.data (le_refl _)
    · rw [hplain, if_neg (by rw [hq]; exact Bool.false_ne_true)]
      exact hq

/-- Claim C6, counterexample to the claim as stated: with tag name ".", the
notes `[x]` do not contain the literal `[.]`, yet removeTag erases the
unrelated tag `[x]` (result `""`) because the unescaped pattern matches it. -/
theorem removeTag_dot_counterexample :
    substrCIL (bracketTag ".").data "[x]".data = false ∧
    removeTagNotes "[x]" "." = "" ∧ ("" : String) ≠ "[x]" := by
  exact ⟨by decide, by decide, by decide⟩

/-- Claim C6, witness. -/
theorem removeTag_plain_witness :
    (substrCIL (bracketTag "Home").data "Buy milk".data = false →
      removeTagNotes "Buy milk" "Home" = "Buy milk") ∧
    substrCIL (bracketTag "Home").data ((removeTagNotes "Buy milk" "Home").data) = false ∧
    removeTagNotes "Buy milk\n[Home]\n[Urgent]" "Home" = "Buy milk\n[Urgent]" :=
  removeTag_plain "Home" "Buy milk" (by decide)

/-- Claim C4, amended.  For a plain (ASCII alphanumeric) tag name T and notes
N that do not already contain `[T]` (case-insensitively),
`removeTag (addTag N T) T` returns N normalized at its edges: trailing
whitespace and a leading blank-line run are removed, everything else is
preserved.  (The unamended claim — round trip for every N — is refuted by
`roundTrip_counterexample`: when N already contains `[T]`, addTag is a no-op
and removeTag then removes content, which no whitespace normalization can
recover.) -/
theorem roundTrip_normalized (tag N : String)
    (hp : ∀ c ∈ tag.data, plainChar c = true)
    (hN : substrCIL (bracketTag tag).data N.data = false) :
    removeTagNotes (addTagNotes N tag) tag = edgeNormalized N := by
  rw [bracketTag_data] at hN
  have hHas : hasTag N tag = false := by
    rw [hasTag_eq_substr N tag hp, bracketTag_data]
    exact hN
  unfold addTagNotes
  simp only [hHas, Bool.false_eq_true, if_false]
  by_cases hNe : N = ""
  · rw [if_pos hNe, hNe]
    rw [removeTagNotes_plain _ tag hp, bracketTag_data]
    rw [if_pos (substrCIL_bracket_self tag)]
    rw [removeScan_bracket_self]
    rfl
  · rw [if_neg hNe]
    rw [removeTagNotes_plain _ tag hp]
    rw [addTag_data_plain]
    rw [if_pos (substrCIL_newline_bracket tag N.data)]
    rw [removeScan_append_bracket tag hp N.data hN]
    rw [stripEdgeNewlines_snoc_nl (trimTrailWs N.data) (trimTrailWs_fixed N.data)]
    rfl

/-- Claim C4, counterexample to the claim as stated: for N already containing
the tag, the round trip deletes the tag, which differs from N by more than
whitespace normalization. -/
theorem roundTrip_counterexample :
    removeTagNotes (addTagNotes "[Home]" "Home") "Home" = "" ∧
    edgeNormalized "[Home]" = "[Home]" ∧ ("" : String) ≠ "[Home]" := by
  exact ⟨by decide, by decide, by decide⟩

/-- Claim C4, witness. -/
theorem roundTrip_normalized_witness :
    removeTagNotes (addTagNotes "Buy milk" "Home") "Home" = edgeNormalized "Buy milk" :=
  roundTrip_normalized "Home" "Buy milk" (by decide) (by decide)

/-! ### Claims C2, C8: the collection resolver -/

theorem resolveTaskListId_cons_some (l0 : GTaskList) (rest : List GTaskList) (r : String) :
    resolveTaskListId (l0 :: rest) (some r) =
      if r = "" || r = "@default" then .ok (l0.id.getD "")
      else
        match (l0 :: rest).find? (fun l => l.id == some r) with
        | some l => .ok (l.id.getD "")
        | none =>
          match (l0 :: rest).find? (fun l =>
              l.title.map jsToLowerCase == some (jsToLowerCase r)) with
          | some l => .ok (l.id.getD "")
          | none => .ok (l0.id.getD "") := rfl

/-- Claim C2, amended.  Resolution over a non-empty list is deterministic and
ordered: an absent reference, the sentinel "@default", or — the amendment —
an empty-string reference (falsy in JavaScript, so treated like an absent
one) selects the first list; otherwise an exact id match is tried first,
then a case-insensitive exact name match, and failing both the resolver
falls back to the first list.  The two spec scenarios hold.  (The unamended
claim — empty string handled by the match cascade — is refuted by
`resolver_empty_ref_counterexample`.) -/
theorem resolver_ordering (l0 : GTaskList) (rest : List GTaskList) (r : String) :
    resolveTaskListId (l0 :: rest) none = .ok (l0.id.getD "") ∧
    resolveTaskListId (l0 :: rest) (some "@default") = .ok (l0.id.getD "") ∧
    resolveTaskListId (l0 :: rest) (some "") = .ok (l0.id.getD "") ∧
    (r ≠ "" → r ≠ "@default" →
      (∀ l, (l0 :: rest).find? (fun x => x.id == some r) = some l →
        resolveTaskListId (l0 :: rest) (some r) = .ok (l.id.getD "")) ∧
      ((l0 :: rest).find? (fun x => x.id == some r) = none →
        (∀ l, (l0 :: rest).find? (fun x =>
            x.title.map jsToLowerCase == some (jsToLowerCase r)) = some l →
          resolveTaskListId (l0 :: rest) (some r) = .ok (l.id.getD "")) ∧
        ((l0 :: rest).find? (fun x =>
            x.title.map jsToLowerCase == some (jsToLowerCase r)) = none →
          resolveTaskListId (l0 :: rest) (some r) = .ok (l0.id.getD "")))) ∧
    resolveTaskListId [⟨some "L1", some "Life"⟩, ⟨some "L2", some "Home"⟩] none
      = .ok "L1" ∧
    resolveTaskListId [⟨some "L1", some "Life"⟩, ⟨some "L2", some "Home"⟩] (some "home")
      = .ok "L2" := by
  refine ⟨rfl, rfl, rfl, ?_, rfl, rfl⟩
  intro hr1 hr2
  refine ⟨?_, ?_⟩
  · intro l hfind
    rw [resolveTaskListId_cons_some]
    simp only [hr1, hr2, hfind]
    rfl
  · intro hnone
    refine ⟨?_, ?_⟩
    · intro l hfind
      rw [resolveTaskListId_cons_some]
      simp only [hr1, hr2, hnone, hfind]
      rfl
    · intro hnone2
      rw [resolveTaskListId_cons_some]
      simp only [hr1, hr2, hnone, hnone2]
      rfl

/-- Claim C2, counterexample to the claim as stated: an empty-string
reference is falsy, so the resolver returns the first list even when another
list's id is an exact match for it. -/
theorem resolver_empty_ref_counterexample :
    resolveTaskListId [⟨some "A", some "x"⟩, ⟨some "", some "y"⟩] (some "") = .ok "A" ∧
    List.find? (fun l => l.id == some "")
      [(⟨some "A", some "x"⟩ : GTaskList), ⟨some "", some "y"⟩] =
      some ⟨some "", some "y"⟩ ∧
    ("A" : String) ≠ "" := by
  exact ⟨rfl, by decide, by decide⟩

/-- Claim C2, witness. -/
theorem resolver_ordering_witness :
    resolveTaskListId [⟨some "L1", some "Life"⟩, ⟨some "L2", some "Home"⟩] none
      = .ok "L1" ∧
    resolveTaskListId [⟨some "L1", some "Life"⟩, ⟨some "L2", some "Home"⟩] (some "home")
      = .ok "L2" :=
  ⟨(resolver_ordering ⟨some "L1", some "Life"⟩ [⟨some "L2", some "Home"⟩] "home").1,
   (((resolver_ordering ⟨some "L1", some "Life"⟩ [⟨some "L2", some "Home"⟩] "home").2.2.2.1
      (by decide) (by decide)).2 rfl).1 ⟨some "L2", some "Home"⟩ rfl⟩

/-- Claim C8: resolving any reference against an empty task-list list fails
with the "no collections" error and never returns a collection id. -/
theorem resolver_empty_fails (ref : Option String) :
    resolveTaskListId [] ref = .error noTaskListsMsg ∧
    ∀ cid, resolveTaskListId [] ref ≠ .ok cid := by
  refine ⟨rfl, ?_⟩
  intro cid h
  rw [show resolveTaskListId [] ref = .error noTaskListsMsg from rfl] at h
  simp at h

/-- Claim C8, witness. -/
theorem resolver_empty_fails_witness :
    resolveTaskListId [] (some "Life") = .error noTaskListsMsg ∧
    ∀ cid, resolveTaskListId [] (some "Life") ≠ .ok cid :=
  resolver_empty_fails (some "Life")

/-! ### Claim C3: the retry wrapper -/

/-- Claim C3: with the default budget of 1, the wrapper retries exactly once
on a transient first failure — waiting exactly one backoff interval `d` and
passing the doubled interval to the recursive call — propagates the retry's
outcome unchanged (in particular, the original error when the thunk keeps
failing the same way), consults only attempts 0 and 1, and never retries a
non-transient failure such as 404 NotFound; the transient classification is
exactly 401/429/500/503/ECONNRESET/ETIMEDOUT. -/
theorem withRetry_single_retry (fn : Nat → Except JsError Nat) (e : JsError) (d : Nat) :
    (isRetryable e = false → fn 0 = .error e → withRetry fn 1 d 0 = (.error e, [])) ∧
    (isRetryable e = true → fn 0 = .error e →
      (∀ a, fn 1 = .ok a → withRetry fn 1 d 0 = (.ok a, [d])) ∧
      (∀ e2, fn 1 = .error e2 → withRetry fn 1 d 0 = (.error e2, [d]))) ∧
    (∀ r, isRetryable e = true → fn 0 = .error e →
      withRetry fn (r + 1) d 0 =
        ((withRetry fn r (d * 2) 1).1, d :: (withRetry fn r (d * 2) 1).2)) ∧
    (∀ gn : Nat → Except JsError Nat, fn 0 = gn 0 → fn 1 = gn 1 →
      withRetry fn 1 d 0 = withRetry gn 1 d 0) ∧
    (isRetryable ⟨some 401, none⟩ = true ∧ isRetryable ⟨some 429, none⟩ = true ∧
      isRetryable ⟨some 500, none⟩ = true ∧ isRetryable ⟨some 503, none⟩ = true ∧
      isRetryable ⟨none, some (.str "ECONNRESET")⟩ = true ∧
      isRetryable ⟨none, some (.str "ETIMEDOUT")⟩ = true ∧
      isRetryable ⟨some 404, none⟩ = false) := by
  refine ⟨?_, ?_, ?_, ?_, by decide⟩
  · intro hr h0
    simp [withRetry, h0, hr]
  · intro hr h0
    constructor
    · intro a h1
      simp [withRetry, h0, h1, hr]
    · intro e2 h1
      simp [withRetry, h0, h1, hr]
  · intro r hr h0
    simp [withRetry, h0, hr]
  · intro gn hg0 hg1
    cases hf0 : fn 0 with
    | ok a =>
      have hgn0 : gn 0 = .ok a := by rw [← hg0]; exact hf0
      simp [withRetry, hf0, hgn0]
    | error e1 =>
      have hgn0 : gn 0 = .error e1 := by rw [← hg0]; exact hf0
      cases hf1 : fn 1 with
      | ok a =>
        have hgn1 : gn 1 = .ok a := by rw [← hg1]; exact hf1
        simp [withRetry, hf0, hgn0, hf1, hgn1]
      | error e2 =>
        have hgn1 : gn 1 = .error e2 := by rw [← hg1]; exact hf1
        simp [withRetry, hf0, hgn0, hf1, hgn1]

/-- Claim C3, witness: a thunk that always fails with status 500 is retried
once (a single backoff wait) and the error is propagated unchanged. -/
theorem withRetry_single_retry_witness :
    withRetry (fun _ => (Except.error ⟨some 500, none⟩ : Except JsError Nat)) 1 7 0
      = (Except.error (⟨some 500, none⟩ : JsError), [7]) :=
  ((withRetry_single_retry (fun _ => (Except.error ⟨some 500, none⟩ : Except JsError Nat))
      ⟨some 500, none⟩ 7).2.1 (by decide) rfl).2 ⟨some 500, none⟩ rfl

/-! ### Claim C9: the PATCH body of the update tool -/

theorem mem_optField {k k2 v : String} {o : Option String} :
    (k, v) ∈ optField k2 o ↔ k = k2 ∧ o = some v := by
  cases o <;> simp [optField] <;> aesop

/-- Claim C9: when the update handler succeeds, the PATCH body it sends
upstream contains exactly the task id plus those of title/notes/status/due
that were provided; an omitted field never occurs in the body. -/
theorem update_patch_exact_fields (args : UpdateArgs) (body : List (String × String))
    (h : updatePatchFields args = .ok body) :
    ∃ tid, args.id = some tid ∧ tid ≠ "" ∧
      ∀ k v, (k, v) ∈ body ↔
        ((k = "id" ∧ v = tid) ∨ (k = "title" ∧ args.title = some v) ∨
          (k = "notes" ∧ args.notes = some v) ∨ (k = "status" ∧ args.status = some v) ∨
          (k = "due" ∧ args.due = some v)) := by
  unfold updatePatchFields at h
  split at h
  · exact absurd h (by simp)
  · next tid heq =>
    split at h
    · exact absurd h (by simp)
    · next htid =>
      have hb : ([("id", tid)] ++ optField "title" args.title ++
          optField "notes" args.notes ++ optField "status" args.status ++
          optField "due" args.due) = body := by
        simpa using h
      refine ⟨tid, heq, htid, ?_⟩
      intro k v
      rw [← hb]
      simp only [List.mem_append, List.mem_singleton, mem_optField, Prod.mk.injEq]
      tauto

/-- Claim C9, witness: a request providing id, title and status produces a
body with exactly those fields. -/
theorem update_patch_exact_fields_witness :
    ∃ tid, (some "T1" : Option String) = some tid ∧ tid ≠ "" ∧
      ∀ k v, (k, v) ∈ [("id", "T1"), ("title", "New"), ("status", "completed")] ↔
        ((k = "id" ∧ v = tid) ∨ (k = "title" ∧ (some "New" : Option String) = some v) ∨
          (k = "notes" ∧ (none : Option String) = some v) ∨
          (k = "status" ∧ (some "completed" : Option String) = some v) ∨
          (k = "due" ∧ (none : Option String) = some v)) :=
  update_patch_exact_fields ⟨some "T1", some "New", none, some "completed", none⟩
    [("id", "T1"), ("title", "New"), ("status", "completed")] rfl

/-! ### Claim C10: create with zero task lists -/

theorem createTaskFlow_empty_unfold (args : CreateArgs) (nli : Option String) :
    createTaskFlow [] args nli =
      match nli with
      | none => .error "Failed to create a new task list"
      | some lid =>
        match args.title with
        | none => .error "Task title is required"
        | some t2 =>
          if t2 = "" then .error "Task title is required"
          else .ok ⟨lid, some "My Tasks", mkCreateBody args t2⟩ := by
  have hinc : jsIncludes noTaskListsMsg "No task lists found" = true := by decide
  cases nli with
  | none => rfl
  | some lid =>
    cases ht : args.title with
    | none => simp [createTaskFlow, resolveTaskListId, ht, hinc]
    | some t2 => simp [createTaskFlow, resolveTaskListId, ht, hinc]

/-- Claim C10: when the upstream reports zero task lists, the create
operation does not surface the resolver's "No task lists found" error —
although the resolver itself fails with exactly that error on the empty
list — but instead creates a task list titled "My Tasks" and the requested
task in it, failing only when the creation of that default list yields no
id. -/
theorem create_bootstraps_default_list (args : CreateArgs) (nli : Option String)
    (t : String) (ht : args.title = some t) (htne : t ≠ "") :
    (createTaskFlow [] args nli =
      match nli with
      | some lid => .ok ⟨lid, some "My Tasks", mkCreateBody args t⟩
      | none => .error "Failed to create a new task list") ∧
    (∀ msg, createTaskFlow [] args nli = .error msg → msg ≠ noTaskListsMsg) ∧
    resolveTaskListId [] args.taskListId = .error noTaskListsMsg := by
  refine ⟨?_, ?_, rfl⟩
  · rw [createTaskFlow_empty_unfold, ht]
    cases nli with
    | none => rfl
    | some lid => simp [htne]
  · intro msg hmsg
    rw [createTaskFlow_empty_unfold, ht] at hmsg
    cases nli with
    | none =>
      have h2 : (Except.error "Failed to create a new task list" :
          Except String CreateOutcome) = .error msg := hmsg
      cases h2
      decide
    | some lid =>
      have h2 : (if t = "" then (Except.error "Task title is required" :
            Except String CreateOutcome)
          else .ok ⟨lid, some "My Tasks", mkCreateBody args t⟩) = .error msg := hmsg
      rw [if_neg htne] at h2
      exact absurd h2 (by simp)

/-- Claim C10, witness. -/
theorem create_bootstraps_witness :
    (createTaskFlow [] ⟨none, some "Verify", none, none, none⟩ (some "L9") =
      match (some "L9" : Option String) with
      | some lid => .ok ⟨lid, some "My Tasks",
          mkCreateBody ⟨none, some "Verify", none, none, none⟩ "Verify"⟩
      | none => .error "Failed to create a new task list") ∧
    (∀ msg, createTaskFlow [] ⟨none, some "Verify", none, none, none⟩ (some "L9")
        = .error msg → msg ≠ noTaskListsMsg) ∧
    resolveTaskListId []
      (CreateArgs.taskListId ⟨none, some "Verify", none, none, none⟩)
      = .error noTaskListsMsg :=
  create_bootstraps_default_list ⟨none, some "Verify", none, none, none⟩
    (some "L9") "Verify" rfl (by decide)

/-! ### Claim C7: session routing errors -/

/-- Claim C7, amended.  Routing by session id: an unknown session id on the
SSE follow-up endpoint yields a 404 "Session not found" without touching any
state; an unknown session id on the StreamableHTTP endpoint yields the
JSON-RPC "Session not found" error without touching any state — but, the
amendment, only when the request is not a POST initialize: a POST initialize
request creates a fresh session even when it carries a stale session id
(refuted claim: see `session_stale_init_counterexample`); and a request with
no session id that is not a POST initialize yields the "Bad Request"
protocol error without creating a session. -/
theorem session_routing_errors (st : SessionState) (sid : String) (m : String)
    (isInit : Bool) (fs : String) (ft : Nat) :
    (st.sse.lookup sid = none →
      handleMessagePost st sid = (.notFound404 "Session not found", st)) ∧
    (sid ≠ "" → st.streamable.lookup sid = none → ¬(m = "POST" ∧ isInit = true) →
      handleMcp st (some sid) m isInit fs ft =
        (.notFound (-32000) "Session not found. It may have expired.", st)) ∧
    (¬(m = "POST" ∧ isInit = true) →
      handleMcp st none m isInit fs ft =
        (.badRequest (-32600)
          "Bad Request: missing session ID or not an initialize request", st)) := by
  have hcond : ∀ (hni : ¬(m = "POST" ∧ isInit = true)),
      (decide (m = "POST") && isInit) = false := by
    intro hni
    by_cases hmp : m = "POST"
    · rcases Bool.eq_false_or_eq_true isInit with hi | hi
      · exact absurd ⟨hmp, hi⟩ hni
      · simp [hmp, hi]
    · simp [hmp]
  refine ⟨?_, ?_, ?_⟩
  · intro h
    unfold handleMessagePost
    rw [h]
  · intro hne hlook hni
    simp only [handleMcp, if_neg hne, Option.some_bind, hlook, hcond hni,
      Bool.false_eq_true, if_false]
  · intro hni
    simp only [handleMcp, Option.none_bind, hcond hni, Bool.false_eq_true, if_false]

/-- Claim C7, counterexample to the claim as stated: a POST initialize
request carrying an unknown ("stale") session id does not get a
"session not found" error — it creates a brand-new session, mutating the
session table and the connection counters. -/
theorem session_stale_init_counterexample :
    handleMcp ⟨[], [], 0, 0⟩ (some "stale") "POST" true "fresh" 7 =
      (.created "fresh", ⟨[], [("fresh", 7)], 1, 1⟩) ∧
    (handleMcp ⟨[], [], 0, 0⟩ (some "stale") "POST" true "fresh" 7).2 ≠
      (⟨[], [], 0, 0⟩ : SessionState) := by
  exact ⟨by decide, by decide⟩

/-- Claim C7, witness. -/
theorem session_routing_witness :
    handleMessagePost ⟨[], [], 0, 0⟩ "ghost" =
      (.notFound404 "Session not found", (⟨[], [], 0, 0⟩ : SessionState)) ∧
    handleMcp ⟨[], [], 0, 0⟩ (some "ghost") "GET" false "f" 0 =
      (.notFound (-32000) "Session not found. It may have expired.",
        (⟨[], [], 0, 0⟩ : SessionState)) ∧
    handleMcp ⟨[], [], 0, 0⟩ none "GET" false "f" 0 =
      (.badRequest (-32600)
        "Bad Request: missing session ID or not an initialize request",
        (⟨[], [], 0, 0⟩ : SessionState)) :=
  ⟨(session_routing_errors ⟨[], [], 0, 0⟩ "ghost" "GET" false "f" 0).1 rfl,
   (session_routing_errors ⟨[], [], 0, 0⟩ "ghost" "GET" false "f" 0).2.1
     (by decide) rfl (by decide),
   (session_routing_errors ⟨[], [], 0, 0⟩ "ghost" "GET" false "f" 0).2.2 (by decide)⟩
